import Mathlib

/-!
Verification development for the PhotoReturns media-organization engine.

The definitions below are a shallow embedding of the TypeScript frontend
(`src/App.tsx`, `src/hooks/useMediaTableColumns.tsx`, the App/component
variants, `src/components/ProcessSummary.tsx`).  The Rust backend
(`src-tauri/src/{photo_core,burst,orientation}.rs`) is not part of the
sources; the parts of the pipeline that live there (date resolution,
burst grouping, the retry driver) are modelled from the specification and
carry a doc comment saying so.

Conventions of the embedding:
* ISO date strings exchanged with the backend are embedded by their parsed
  calendar value (structure `DT` below); JavaScript `Date` millisecond
  arithmetic on whole-minute timezone offsets is embedded as calendar
  arithmetic at minute granularity with the seconds field untouched.
* JavaScript `null`/`undefined` fields are embedded as `Option`;
  string truthiness (`""` falsy) and number truthiness (`0` falsy) are
  made explicit where the code relies on them.
* Timestamps for burst grouping are integer milliseconds.
-/

namespace PhotoReturns

/-- Media kind of a scanned file (`media_type` in `MediaInfo`). -/
inductive MediaType where
  | photo
  | video
deriving DecidableEq, Repr

/-- Source tag of the resolved date (`date_source` in `MediaInfo`). -/
inductive DateSource where
  | exif
  | fileName
  | fileCreated
  | fileModified
  | none
deriving DecidableEq, Repr

/-- User-selected rotation mode (`rotation_mode` in `MediaInfo`):
"none", "exif", "90", "180", "270". -/
inductive RotationMode where
  | nothing
  | exif
  | r90
  | r180
  | r270
deriving DecidableEq, Repr

/-- Per-record processing status (`status` in `MediaInfo`). -/
inductive Status where
  | pending
  | processing
  | completed
  | error
  | no_change
deriving DecidableEq, Repr

/-- Calendar date-time value, the embedding of an ISO date string as consumed
by `new Date(...)` and read back through the local-time getters. -/
structure DT where
  year : Int
  month : Nat
  day : Nat
  hour : Nat
  minute : Nat
  second : Nat
deriving DecidableEq, Repr

/-- Embedding of the `MediaInfo` record in `src/types.ts`. -/
structure MediaInfo where
  original_path : String
  file_name : String
  media_type : MediaType
  date_taken : Option DT
  subsec_time : Option Nat
  timezone : Option String
  exif_date : Option DT
  filename_date : Option DT
  file_created_date : Option DT
  file_modified_date : Option DT
  new_name : String
  new_path : String
  file_size : Nat
  burst_group_id : Option Nat
  burst_index : Option Nat
  date_source : DateSource
  exif_orientation : Option Int
  rotation_applied : Bool
  timezone_offset : Option String
  rotation_mode : Option RotationMode
  width : Option Nat
  height : Option Nat
  progress : Option Nat
  status : Option Status
  error_message : Option String
deriving DecidableEq, Repr

/-- A blank record used to build concrete test inputs. -/
def blankMedia : MediaInfo where
  original_path := ""
  file_name := ""
  media_type := MediaType.photo
  date_taken := Option.none
  subsec_time := Option.none
  timezone := Option.none
  exif_date := Option.none
  filename_date := Option.none
  file_created_date := Option.none
  file_modified_date := Option.none
  new_name := ""
  new_path := ""
  file_size := 0
  burst_group_id := Option.none
  burst_index := Option.none
  date_source := DateSource.none
  exif_orientation := Option.none
  rotation_applied := false
  timezone_offset := Option.none
  rotation_mode := Option.none
  width := Option.none
  height := Option.none
  progress := Option.none
  status := Option.none
  error_message := Option.none

/-! ### Offset-string parsing

Both timezone-correction sites run the same JavaScript regular expression
`/([+-])(\d{2}):(\d{2})/` over the selected offset string and turn the first
match into a signed minute count
(`src/hooks/useMediaTableColumns.tsx:551-556`, App variant Date Taken cell).
`parseOffsetMinutes` embeds that: scan the character positions left to right
and match a six-character window sign/digit/digit/colon/digit/digit. -/

/-- Whether a character is an ASCII digit, as matched by `\d`. -/
def isDigitChar (c : Char) : Bool := '0' ≤ c && c ≤ '9'

/-- Numeric value of an ASCII digit character. -/
def digitVal (c : Char) : Nat := c.toNat - '0'.toNat

/-- Try to match `([+-])(\d{2}):(\d{2})` at the head of the character list and
return the signed minute count `sign * (HH*60 + MM)`. -/
def matchOffsetAt : List Char → Option Int
  | s :: d1 :: d2 :: c :: d3 :: d4 :: _ =>
    if (s == '+' || s == '-') && isDigitChar d1 && isDigitChar d2 &&
        c == ':' && isDigitChar d3 && isDigitChar d4 then
      let hours : Nat := digitVal d1 * 10 + digitVal d2
      let minutes : Nat := digitVal d3 * 10 + digitVal d4
      let mins : Int := (hours * 60 + minutes : Nat)
      some (if s == '+' then mins else -mins)
    else Option.none
  | _ => Option.none

/-- Leftmost match of the offset pattern in a character list. -/
def findOffset : List Char → Option Int
  | [] => Option.none
  | c :: cs =>
    match matchOffsetAt (c :: cs) with
    | some m => some m
    | Option.none => findOffset cs

/-- Signed minute count of the first `([+-])(\d{2}):(\d{2})` match in an
offset string, `Option.none` when the pattern does not occur. -/
def parseOffsetMinutes (s : String) : Option Int := findOffset s.data

/-! ### The two timezone-correction variants

`calculateNewName` (`src/hooks/useMediaTableColumns.tsx:550-558`) applies the
parsed signed offset directly to the timestamp:
`d = new Date(d.getTime() + offsetMinutes * 60 * 1000)`.
The Date Taken cell of the App variant applies the delta against the fixed
Japan reference offset instead:
`diffMinutes = 540 - offsetMinutes; d = new Date(d.getTime() + diffMinutes * 60 * 1000)`.
Both are embedded here at the level of the epoch-millisecond value `getTime`
returns. -/

/-- Shift applied by `calculateNewName`: the signed parsed offset is added
directly to the timestamp (milliseconds). -/
def shiftDirectMs (t : Int) (o : String) : Int :=
  match parseOffsetMinutes o with
  | some m => t + m * 60 * 1000
  | Option.none => t

/-- Shift applied by the Date Taken cell: the delta `540 - offsetMinutes`
against the fixed `+09:00` reference is added to the timestamp
(milliseconds). -/
def shiftDeltaMs (t : Int) (o : String) : Int :=
  match parseOffsetMinutes o with
  | some m => t + (540 - m) * 60 * 1000
  | Option.none => t

/-- The claim C1 asserts the two variants agree exactly at offset `+09:00`
(+540 minutes).  This is false: at `+09:00` the direct variant adds 540
minutes while the delta variant adds `540 - 540 = 0` minutes, so they differ
on every timestamp. -/
theorem c1_tz_variants_counterexample :
    parseOffsetMinutes "+09:00" = some 540 ∧
      shiftDirectMs 0 "+09:00" ≠ shiftDeltaMs 0 "+09:00" := by
  decide

/-- C1 (amended): for a fixed timestamp `t` and an offset string `o` that
parses to `m` signed minutes, the direct variant (`calculateNewName`) and the
delta variant (Date Taken cell) produce the same shifted timestamp if and
only if `m = 270` (the offset `+04:30`), not `+540`; in particular they
disagree at `+09:00` and at every whole-hour offset. -/
theorem c1_tz_variants_agree_iff (t : Int) (o : String) (m : Int)
    (h : parseOffsetMinutes o = some m) :
    (shiftDirectMs t o = shiftDeltaMs t o ↔ m = 270) := by
  simp only [shiftDirectMs, shiftDeltaMs, h]
  omega

/-- Witness for C1: at the offset `+04:30` (which parses to +270 minutes) the
two variants do agree. -/
theorem c1_tz_variants_witness :
    parseOffsetMinutes "+04:30" = some 270 ∧
      shiftDirectMs 0 "+04:30" = shiftDeltaMs 0 "+04:30" :=
  ⟨by decide, (c1_tz_variants_agree_iff 0 "+04:30" 270 (by decide)).mpr rfl⟩

/-- C8: parsing a well-formed `sign HH:MM` offset string yields the signed
minute count `sign * (HH*60 + MM)`; in particular `"+09:00"` parses to
`+540` and `"-05:00"` parses to `-300` minutes. -/
theorem c8_offset_parse :
    (∀ (sgn d1 d2 d3 d4 : Char),
        (sgn = '+' ∨ sgn = '-') →
        isDigitChar d1 = true → isDigitChar d2 = true →
        isDigitChar d3 = true → isDigitChar d4 = true →
        parseOffsetMinutes (String.mk [sgn, d1, d2, ':', d3, d4]) =
          some (if sgn = '+'
            then (((digitVal d1 * 10 + digitVal d2) * 60 +
              (digitVal d3 * 10 + digitVal d4) : Nat) : Int)
            else -(((digitVal d1 * 10 + digitVal d2) * 60 +
              (digitVal d3 * 10 + digitVal d4) : Nat) : Int))) ∧
    parseOffsetMinutes "+09:00" = some 540 ∧
    parseOffsetMinutes "-05:00" = some (-300) := by
  refine ⟨?_, by decide, by decide⟩
  intro sgn d1 d2 d3 d4 hs h1 h2 h3 h4
  have hsb : (sgn == '+' || sgn == '-') = true := by
    rcases hs with h | h <;> simp [h]
  simp only [parseOffsetMinutes, String.mk, findOffset, matchOffsetAt,
    hsb, h1, h2, h3, h4, beq_self_eq_true, Bool.and_true, Bool.true_and,
    if_pos]
  rcases hs with h | h <;> subst h <;> simp

/-- Witness for C8: the general parsing statement evaluated at the concrete
characters of `"+09:00"`. -/
theorem c8_offset_parse_witness :
    parseOffsetMinutes (String.mk ['+', '0', '9', ':', '0', '0']) =
      some (if '+' = '+'
        then (((digitVal '0' * 10 + digitVal '9') * 60 +
          (digitVal '0' * 10 + digitVal '0') : Nat) : Int)
        else -(((digitVal '0' * 10 + digitVal '9') * 60 +
          (digitVal '0' * 10 + digitVal '0') : Nat) : Int)) :=
  c8_offset_parse.1 '+' '0' '9' '0' '0' (Or.inl rfl)
    (by decide) (by decide) (by decide) (by decide)

/-! ### Calendar arithmetic

`calculateNewName` shifts the timestamp by a whole number of minutes through
JavaScript `Date` epoch-millisecond arithmetic and reads the calendar
components back.  The embedding performs the same shift at minute granularity
on the civil calendar (the seconds component is untouched by whole-minute
offsets), using the standard civil-from-days/days-from-civil conversion with
floor division. -/

/-- Day count since 1970-01-01 of a civil date (floor-division form of the
standard algorithm). -/
def daysFromCivil (y : Int) (m d : Nat) : Int :=
  let y2 : Int := if m ≤ 2 then y - 1 else y
  let era : Int := Int.fdiv y2 400
  let yoe : Nat := (y2 - era * 400).toNat
  let mp : Nat := (m + 9) % 12
  let doy : Nat := (153 * mp + 2) / 5 + d - 1
  let doe : Nat := yoe * 365 + yoe / 4 - yoe / 100 + doy
  era * 146097 + (doe : Int) - 719468

/-- Civil date of a day count since 1970-01-01 (inverse of
`daysFromCivil`). -/
def civilFromDays (z0 : Int) : Int × Nat × Nat :=
  let z : Int := z0 + 719468
  let era : Int := Int.fdiv z 146097
  let doe : Nat := (z - era * 146097).toNat
  let yoe : Nat := (doe - doe / 1460 + doe / 36524 - doe / 146096) / 365
  let doy : Nat := doe - (365 * yoe + yoe / 4 - yoe / 100)
  let mp : Nat := (5 * doy + 2) / 153
  let d : Nat := doy - (153 * mp + 2) / 5 + 1
  let m : Nat := if mp < 10 then mp + 3 else mp - 9
  let y : Int := (yoe : Int) + era * 400
  (if m ≤ 2 then y + 1 else y, m, d)

/-- Minute count since the epoch of a calendar value. -/
def dtTotalMinutes (dt : DT) : Int :=
  daysFromCivil dt.year dt.month dt.day * 1440 + dt.hour * 60 + dt.minute

/-- Calendar value of a minute count since the epoch, with a given seconds
component. -/
def dtOfMinutes (total : Int) (sec : Nat) : DT :=
  let day : Int := Int.fdiv total 1440
  let rem : Nat := (total - day * 1440).toNat
  let c := civilFromDays day
  ⟨c.1, c.2.1, c.2.2, rem / 60, rem % 60, sec⟩

/-- Shift a calendar value by a signed whole number of minutes, the embedding
of `new Date(d.getTime() + offsetMinutes * 60 * 1000)` for whole-minute
offsets. -/
def addMinutes (dt : DT) (k : Int) : DT :=
  dtOfMinutes (dtTotalMinutes dt + k) dt.second

/-! ### Destination-name computation

`calculateNewName` (`src/hooks/useMediaTableColumns.tsx:536-579`). -/

/-- Equivalent of JavaScript `String(n).padStart(w, '0')` for a natural
number. -/
def padNat (w n : Nat) : String :=
  let s := toString n
  if s.length < w then String.mk (List.replicate (w - s.length) '0') ++ s
  else s

/-- JavaScript truthiness of an optional string (`null`, `undefined` and
`""` are falsy). -/
def optStrTruthy : Option String → Bool
  | some s => !s.isEmpty
  | Option.none => false

/-- Effective corrected calendar value used by `calculateNewName`
(lines 541-559): the user-selected offset, with `"exif"` replaced by the
embedded timezone when one is present, is parsed and applied as a direct
shift; `"none"` and an unmatched pattern leave the value unshifted. -/
def correctedDT (media : MediaInfo) (dt : DT) : DT :=
  let selectedOffset := media.timezone_offset.getD "none"
  let offsetToUse :=
    if selectedOffset == "exif" && optStrTruthy media.timezone then
      media.timezone.getD ""
    else selectedOffset
  if offsetToUse != "none" && offsetToUse != "exif" then
    match parseOffsetMinutes offsetToUse with
    | some m => addMinutes dt m
    | Option.none => dt
  else dt

/-- Extension rule of `calculateNewName` (line 570):
`media.file_name.split('.').pop() || 'jpg'`. -/
def extensionOf (fileName : String) : String :=
  let e := (fileName.splitOn ".").getLastD ""
  if e.isEmpty then "jpg" else e

/-- Destination-name preview computed by `calculateNewName`
(`src/hooks/useMediaTableColumns.tsx:536-579`): the sentinel
`"unknown_date"` when no date is resolved, otherwise
`YYYY-MM-DD_HH-MM-SS` of the corrected local time, `-mmm` when
`subsec_time` is present, then `.` and the extension. -/
def calculateNewName (media : MediaInfo) : String :=
  match media.date_taken with
  | Option.none => "unknown_date"
  | some dt =>
    let d := correctedDT media dt
    let year := toString d.year
    let month := padNat 2 d.month
    let day := padNat 2 d.day
    let hour := padNat 2 d.hour
    let minute := padNat 2 d.minute
    let second := padNat 2 d.second
    let extension := extensionOf media.file_name
    match media.subsec_time with
    | some ms =>
        year ++ "-" ++ month ++ "-" ++ day ++ "_" ++ hour ++ "-" ++ minute ++
          "-" ++ second ++ "-" ++ padNat 3 ms ++ "." ++ extension
    | Option.none =>
        year ++ "-" ++ month ++ "-" ++ day ++ "_" ++ hour ++ "-" ++ minute ++
          "-" ++ second ++ "." ++ extension

/-- Output-name grammar asserted by claim C3, written from the spec's words:
`YYYY-MM-DD_HH-MM-SS[-mmm][_NN].ext` from the (possibly timezone-corrected)
local time, where `-mmm` appears when `subsec_time` is present and `_NN`
(zero-padded burst index) appears when the record belongs to a burst
group. -/
def claimNameC3 (media : MediaInfo) (dt : DT) : String :=
  let d := correctedDT media dt
  let core := toString d.year ++ "-" ++ padNat 2 d.month ++ "-" ++
    padNat 2 d.day ++ "_" ++ padNat 2 d.hour ++ "-" ++ padNat 2 d.minute ++
    "-" ++ padNat 2 d.second
  let withMs :=
    match media.subsec_time with
    | some ms => core ++ "-" ++ padNat 3 ms
    | Option.none => core
  let withBurst :=
    match media.burst_group_id, media.burst_index with
    | some _, some n => withMs ++ "_" ++ padNat 2 n
    | _, _ => withMs
  withBurst ++ "." ++ extensionOf media.file_name

/-- Output-name grammar of claim C3 as amended: identical except that no
burst-index segment is ever appended, matching what `calculateNewName`
actually produces. -/
def claimNameC3Amended (media : MediaInfo) (dt : DT) : String :=
  let d := correctedDT media dt
  let core := toString d.year ++ "-" ++ padNat 2 d.month ++ "-" ++
    padNat 2 d.day ++ "_" ++ padNat 2 d.hour ++ "-" ++ padNat 2 d.minute ++
    "-" ++ padNat 2 d.second
  let withMs :=
    match media.subsec_time with
    | some ms => core ++ "-" ++ padNat 3 ms
    | Option.none => core
  withMs ++ "." ++ extensionOf media.file_name

/-- A record belonging to a burst group, with a resolved date and no
timezone correction. -/
def burstRecC3 : MediaInfo :=
  { blankMedia with
    file_name := "a.jpg"
    date_taken := some ⟨2025, 1, 15, 10, 30, 0⟩
    timezone_offset := some "none"
    burst_group_id := some 1
    burst_index := some 2 }

/-- The claim C3 asserts a `_NN` burst-index segment is appended when the
record belongs to a burst group.  This is false for `calculateNewName`: on a
burst record it produces `2025-01-15_10-30-00.jpg`, not the grammar's
`2025-01-15_10-30-00_02.jpg`. -/
theorem c3_name_counterexample :
    burstRecC3.burst_group_id.isSome = true ∧
      burstRecC3.burst_index.isSome = true ∧
      burstRecC3.date_taken = some ⟨2025, 1, 15, 10, 30, 0⟩ ∧
      calculateNewName burstRecC3 ≠
        claimNameC3 burstRecC3 ⟨2025, 1, 15, 10, 30, 0⟩ := by
  decide

/-- C3 (amended): for every record with a resolved date the computed output
filename is `YYYY-MM-DD_HH-MM-SS.ext` from the (possibly timezone-corrected)
local time, with `-mmm` appended when `subsec_time` is present; no burst
index segment is appended. -/
theorem c3_name_format (media : MediaInfo) (dt : DT)
    (h : media.date_taken = some dt) :
    calculateNewName media = claimNameC3Amended media dt := by
  cases hs : media.subsec_time <;>
    simp [calculateNewName, claimNameC3Amended, h, hs, String.append_assoc]

/-- Witness for C3: the amended format statement evaluated on a concrete
record carrying a sub-second component. -/
theorem c3_name_format_witness :
    ({ blankMedia with
        file_name := "b.png"
        date_taken := some ⟨2024, 12, 31, 23, 59, 58⟩
        subsec_time := some 7 } : MediaInfo).date_taken =
        some ⟨2024, 12, 31, 23, 59, 58⟩ ∧
      calculateNewName
        { blankMedia with
          file_name := "b.png"
          date_taken := some ⟨2024, 12, 31, 23, 59, 58⟩
          subsec_time := some 7 } =
        claimNameC3Amended
          { blankMedia with
            file_name := "b.png"
            date_taken := some ⟨2024, 12, 31, 23, 59, 58⟩
            subsec_time := some 7 } ⟨2024, 12, 31, 23, 59, 58⟩ :=
  ⟨rfl, c3_name_format _ _ rfl⟩

/-! ### Rotation resolution

The `getRotationDegrees` closure of the After cell
(`src/hooks/useMediaTableColumns.tsx:446-461`). -/

/-- JavaScript truthiness of an optional number (`null` and `0` are
falsy). -/
def optIntTruthy : Option Int → Bool
  | some n => n != 0
  | Option.none => false

/-- Rotation degrees resolved by `getRotationDegrees`
(`src/hooks/useMediaTableColumns.tsx:446-461`): an if-chain over the
rotation mode, with the `exif` branch guarded by JavaScript truthiness of
`exif_orientation` and a switch over the orientation values 1/3/6/8. -/
def getRotationDegrees (rotationMode : RotationMode) (orient : Option Int) :
    Int :=
  if rotationMode = RotationMode.nothing then 0
  else if rotationMode = RotationMode.exif ∧ optIntTruthy orient = true then
    match orient with
    | some n =>
        if n = 1 then 0
        else if n = 3 then 180
        else if n = 6 then 90
        else if n = 8 then 270
        else 0
    | Option.none => 0
  else if rotationMode = RotationMode.r90 then 90
  else if rotationMode = RotationMode.r180 then 180
  else if rotationMode = RotationMode.r270 then 270
  else 0

/-- Rotation table asserted by claim C7, written from the spec's words:
`none` resolves to 0; `exif` resolves orientation 1/3/6/8 to 0/180/90/270
and any other or absent orientation to 0; an explicit mode resolves to its
literal value. -/
def claimRotationDegrees (rotationMode : RotationMode) (orient : Option Int) :
    Int :=
  match rotationMode with
  | RotationMode.nothing => 0
  | RotationMode.exif =>
    match orient with
    | some n =>
        if n = 1 then 0
        else if n = 3 then 180
        else if n = 6 then 90
        else if n = 8 then 270
        else 0
    | Option.none => 0
  | RotationMode.r90 => 90
  | RotationMode.r180 => 180
  | RotationMode.r270 => 270

/-- C7: for every rotation mode and every (possibly absent) orientation
value, `getRotationDegrees` computes exactly the table the claim states. -/
theorem c7_rotation_degrees (rotationMode : RotationMode)
    (orient : Option Int) :
    getRotationDegrees rotationMode orient =
      claimRotationDegrees rotationMode orient := by
  cases rotationMode with
  | exif =>
    cases orient with
    | none => rfl
    | some n =>
      rcases eq_or_ne n 0 with hn | hn
      · subst hn; rfl
      · simp [getRotationDegrees, claimRotationDegrees, optIntTruthy, hn]
  | nothing => cases orient <;> rfl
  | r90 => cases orient <;> rfl
  | r180 => cases orient <;> rfl
  | r270 => cases orient <;> rfl

/-! ### Scan-time default application

The per-record mapping `scanMedia` applies to the backend scan result
(App variant using `useMediaTableColumns`, lines 146-179). -/

/-- Global default configuration held by the App component (separate photo
and video defaults). -/
structure DefaultConfig where
  photoDateSource : DateSource
  photoTimezoneOffset : String
  photoRotationMode : RotationMode
  videoDateSource : DateSource
  videoTimezoneOffset : String
  videoRotationMode : RotationMode
deriving DecidableEq, Repr

/-- Initial state of the default configuration: photos prefer Exif with
timezone and rotation taken from EXIF; videos prefer FileModified with no
correction. -/
def initialDefaultConfig : DefaultConfig where
  photoDateSource := DateSource.exif
  photoTimezoneOffset := "exif"
  photoRotationMode := RotationMode.exif
  videoDateSource := DateSource.fileModified
  videoTimezoneOffset := "none"
  videoRotationMode := RotationMode.nothing

/-- The `getDateForSource` closure of `scanMedia`: candidate date of a
record for a given source tag. -/
def getDateForSource (item : MediaInfo) : DateSource → Option DT
  | DateSource.exif => item.exif_date
  | DateSource.fileName => item.filename_date
  | DateSource.fileCreated => item.file_created_date
  | DateSource.fileModified => item.file_modified_date
  | DateSource.none => Option.none

/-- Per-record mapping applied by `scanMedia` to each scanned record: when
the preferred default source for the record's media kind has an available
candidate, the resolved source and date are overridden with it; status and
progress are initialised and the per-kind default offset and rotation mode
are installed. -/
def applyScanDefaults (cfg : DefaultConfig) (item : MediaInfo) : MediaInfo :=
  let isPhoto := item.media_type = MediaType.photo
  let preferred := if isPhoto then cfg.photoDateSource else cfg.videoDateSource
  let final :=
    match getDateForSource item preferred with
    | some d => (preferred, some d)
    | Option.none => (item.date_source, item.date_taken)
  { item with
    date_source := final.1
    date_taken := final.2
    progress := some 0
    status := some Status.pending
    timezone_offset :=
      some (if isPhoto then cfg.photoTimezoneOffset else cfg.videoTimezoneOffset)
    rotation_mode :=
      some (if isPhoto then cfg.photoRotationMode else cfg.videoRotationMode) }

/-- The full scan mapping over the scanned record list. -/
def scanMediaMap (cfg : DefaultConfig) (l : List MediaInfo) :
    List MediaInfo :=
  l.map (applyScanDefaults cfg)

/-- C4: for every photo record under the default configuration, if
`exif_date` is present then after the scan mapping `date_source` is `Exif`
and `date_taken` equals `exif_date`. -/
theorem c4_default_exif_priority (item : MediaInfo) (d : DT)
    (hphoto : item.media_type = MediaType.photo)
    (hexif : item.exif_date = some d) :
    (applyScanDefaults initialDefaultConfig item).date_source =
        DateSource.exif ∧
      (applyScanDefaults initialDefaultConfig item).date_taken = some d := by
  simp [applyScanDefaults, initialDefaultConfig, getDateForSource, hphoto,
    hexif]

/-- Witness for C4: the default-priority statement evaluated on a concrete
photo record carrying an EXIF date. -/
theorem c4_default_exif_priority_witness :
    (applyScanDefaults initialDefaultConfig
        { blankMedia with exif_date := some ⟨2025, 1, 15, 10, 30, 0⟩ }
      ).date_source = DateSource.exif ∧
      (applyScanDefaults initialDefaultConfig
        { blankMedia with exif_date := some ⟨2025, 1, 15, 10, 30, 0⟩ }
      ).date_taken = some ⟨2025, 1, 15, 10, 30, 0⟩ :=
  c4_default_exif_priority _ _ rfl rfl

/-! ### Process-result merge

The `updatedMedia` mapping of `processMedia` (`src/App.tsx:194-204`, same
in the App variants): each scanned record is matched by `original_path`
against the backend result with `find`, set to progress 100, and marked
`completed` exactly when the matched record's `new_path` is truthy. -/

/-- The process-result merge of `processMedia` (`src/App.tsx:194-204`). -/
def mergeProcessResult (mediaList resultMedia : List MediaInfo) :
    List MediaInfo :=
  mediaList.map (fun item =>
    let processed :=
      resultMedia.find? (fun m => decide (m.original_path = item.original_path))
    let np :=
      match processed with
      | some p => p.new_path
      | Option.none => ""
    { item with
      progress := some 100
      status := some (if np ≠ "" then Status.completed else Status.error)
      new_path := np })

/-- C6: after the process-result merge (over a backend result carrying one
record per file, i.e. with distinct `original_path`s), every record has
progress 100 and status `completed` or `error` — never `pending`,
`processing` or `no_change`; the status is `completed` exactly when the
result contains a record with the same `original_path` and a non-empty
`new_path`, and on `error` the record's `new_path` is the empty string. -/
theorem c6_merge_status (ml rm : List MediaInfo)
    (hnd : (rm.map (fun m => m.original_path)).Nodup)
    (j : Nat) (item : MediaInfo) (hj : ml[j]? = some item) :
    ∃ r, (mergeProcessResult ml rm)[j]? = some r ∧
      r.progress = some 100 ∧
      (r.status = some Status.completed ∨ r.status = some Status.error) ∧
      (r.status = some Status.completed ↔
        ∃ p ∈ rm, p.original_path = item.original_path ∧ p.new_path ≠ "") ∧
      (r.status = some Status.error → r.new_path = "") := by
  rw [mergeProcessResult, List.getElem?_map, hj, Option.map_some']
  refine ⟨_, rfl, rfl, ?_, ?_, ?_⟩
  · cases hf : rm.find? (fun m => decide (m.original_path = item.original_path)) with
    | none => simp [hf]
    | some p =>
      by_cases hnp : p.new_path = "" <;> simp [hf, hnp]
  · cases hf : rm.find? (fun m => decide (m.original_path = item.original_path)) with
    | none =>
      simp only [hf]
      have hnone := List.find?_eq_none.mp hf
      simp only [decide_eq_true_eq] at hnone
      constructor
      · intro h
        exact absurd h (by simp)
      · rintro ⟨p, hp, hpath, -⟩
        exact absurd hpath (hnone p hp)
    | some p =>
      have hmem := List.mem_of_find?_eq_some hf
      have hpath : p.original_path = item.original_path := by
        have := List.find?_some hf
        simpa using this
      by_cases hnp : p.new_path = ""
      · simp only [hf, hnp]
        constructor
        · intro h
          simp at h
        · rintro ⟨q, hq, hqpath, hqne⟩
          have : q = p :=
            List.inj_on_of_nodup_map hnd hq hmem (by rw [hqpath, hpath])
          exact absurd (this ▸ hqne) (by simp [hnp])
      · simp only [hf]
        constructor
        · intro _
          exact ⟨p, hmem, hpath, hnp⟩
        · intro _
          simp [hnp]
  · cases hf : rm.find? (fun m => decide (m.original_path = item.original_path)) with
    | none => simp [hf]
    | some p =>
      by_cases hnp : p.new_path = "" <;> simp [hf, hnp]

/-- Concrete scanned record for the merge witness. -/
def mergeItemC6 : MediaInfo :=
  { blankMedia with
    original_path := "in/a.jpg"
    status := some Status.pending }

/-- Concrete backend result record for the merge witness. -/
def mergeResultC6 : MediaInfo :=
  { blankMedia with
    original_path := "in/a.jpg"
    new_path := "out/2025/a.jpg" }

/-- Witness for C6: the merge statement evaluated on a one-record list whose
backend result reports a written output path. -/
theorem c6_merge_status_witness :
    ∃ r, (mergeProcessResult [mergeItemC6] [mergeResultC6])[0]? = some r ∧
      r.progress = some 100 ∧
      (r.status = some Status.completed ∨ r.status = some Status.error) ∧
      (r.status = some Status.completed ↔
        ∃ p ∈ [mergeResultC6],
          p.original_path = mergeItemC6.original_path ∧ p.new_path ≠ "") ∧
      (r.status = some Status.error → r.new_path = "") :=
  c6_merge_status [mergeItemC6] [mergeResultC6] (by decide) 0 mergeItemC6
    (by decide)

/-! ### User date-source override

`handleSourceChange` of the Date Source cell
(`src/hooks/useMediaTableColumns.tsx:189-203`): the available candidate
list is built from the present date fields, the selected entry is looked
up by source value, and on success the record at the row's index is
replaced with a copy carrying the new source and date. -/

/-- `availableSources` of the Date Source cell: one entry per present
candidate date, in the fixed order Exif, FileName, FileCreated,
FileModified. -/
def availableSources (media : MediaInfo) : List (DateSource × DT) :=
  (match media.exif_date with
    | some d => [(DateSource.exif, d)]
    | Option.none => []) ++
  (match media.filename_date with
    | some d => [(DateSource.fileName, d)]
    | Option.none => []) ++
  (match media.file_created_date with
    | some d => [(DateSource.fileCreated, d)]
    | Option.none => []) ++
  (match media.file_modified_date with
    | some d => [(DateSource.fileModified, d)]
    | Option.none => [])

/-- Index-aware map, the embedding of `prevList.map((item, idx) => ...)`
starting from index `n`. -/
def mapFromIdx (f : Nat → MediaInfo → MediaInfo) (n : Nat) :
    List MediaInfo → List MediaInfo
  | [] => []
  | x :: xs => f n x :: mapFromIdx f (n + 1) xs

/-- Element lookup through `mapFromIdx`. -/
theorem mapFromIdx_getElem? (f : Nat → MediaInfo → MediaInfo) :
    ∀ (l : List MediaInfo) (n k : Nat),
      (mapFromIdx f n l)[k]? = Option.map (f (n + k)) l[k]?
  | [], n, k => by simp [mapFromIdx]
  | x :: xs, n, 0 => by simp [mapFromIdx]
  | x :: xs, n, k + 1 => by
    simp only [mapFromIdx, List.getElem?_cons_succ]
    rw [mapFromIdx_getElem? f xs (n + 1) k]
    have harg : n + 1 + k = n + (k + 1) := by omega
    rw [harg]

/-- Length preservation of `mapFromIdx`. -/
theorem mapFromIdx_length (f : Nat → MediaInfo → MediaInfo) :
    ∀ (l : List MediaInfo) (n : Nat), (mapFromIdx f n l).length = l.length
  | [], _ => rfl
  | x :: xs, n => by
    simp [mapFromIdx, mapFromIdx_length f xs (n + 1)]

/-- `handleSourceChange` (`src/hooks/useMediaTableColumns.tsx:189-203`):
look up the selected source among the row's available candidates; when an
entry with a date is found, replace the record at the row's index by a copy
with the new `date_source` and `date_taken`, leaving every other record
alone; otherwise leave the list unchanged. -/
def handleSourceChange (l : List MediaInfo) (i : Nat) (s : DateSource) :
    List MediaInfo :=
  match l[i]? with
  | Option.none => l
  | some media =>
    match (availableSources media).find? (fun e => decide (e.1 = s)) with
    | some e =>
        mapFromIdx
          (fun idx item =>
            if idx = i then
              { item with date_source := s, date_taken := some e.2 }
            else item) 0 l
    | Option.none => l

/-- The candidate lookup of `handleSourceChange` agrees with the candidate
field selected by `getDateForSource`. -/
theorem find?_availableSources (media : MediaInfo) (s : DateSource) :
    (availableSources media).find? (fun e => decide (e.1 = s)) =
      (getDateForSource media s).map (fun d => (s, d)) := by
  cases s <;>
    cases h1 : media.exif_date <;>
    cases h2 : media.filename_date <;>
    cases h3 : media.file_created_date <;>
    cases h4 : media.file_modified_date <;>
    simp [availableSources, getDateForSource, h1, h2, h3, h4, List.find?]

/-- C10: applying a user date-source override of source `s` to record `i`
changes nothing when record `i` has no candidate for `s`; otherwise it
changes only record `i`, and on record `i` only `date_source` (to `s`) and
`date_taken` (to the candidate date for `s`), with every other record and
every other field of record `i` unchanged. -/
theorem c10_source_override (l : List MediaInfo) (i : Nat) (s : DateSource) :
    (handleSourceChange l i s).length = l.length ∧
    (∀ j, j ≠ i → (handleSourceChange l i s)[j]? = l[j]?) ∧
    (∀ media, l[i]? = some media →
      (getDateForSource media s = Option.none → handleSourceChange l i s = l) ∧
      (∀ d, getDateForSource media s = some d →
        ∃ r, (handleSourceChange l i s)[i]? = some r ∧
          r.date_source = s ∧ r.date_taken = some d ∧
          r.original_path = media.original_path ∧
          r.file_name = media.file_name ∧
          r.media_type = media.media_type ∧
          r.subsec_time = media.subsec_time ∧
          r.timezone = media.timezone ∧
          r.exif_date = media.exif_date ∧
          r.filename_date = media.filename_date ∧
          r.file_created_date = media.file_created_date ∧
          r.file_modified_date = media.file_modified_date ∧
          r.new_name = media.new_name ∧
          r.new_path = media.new_path ∧
          r.file_size = media.file_size ∧
          r.burst_group_id = media.burst_group_id ∧
          r.burst_index = media.burst_index ∧
          r.exif_orientation = media.exif_orientation ∧
          r.rotation_applied = media.rotation_applied ∧
          r.timezone_offset = media.timezone_offset ∧
          r.rotation_mode = media.rotation_mode ∧
          r.width = media.width ∧
          r.height = media.height ∧
          r.progress = media.progress ∧
          r.status = media.status ∧
          r.error_message = media.error_message)) := by
  cases hget : l[i]? with
  | none =>
    refine ⟨by simp [handleSourceChange, hget], ?_, ?_⟩
    · intro j _
      simp [handleSourceChange, hget]
    · intro media hmedia
      exact absurd hmedia (by simp)
  | some media =>
    cases hfind : (availableSources media).find? (fun e => decide (e.1 = s)) with
    | none =>
      have hnone : getDateForSource media s = Option.none := by
        have h := find?_availableSources media s
        rw [hfind] at h
        cases hg : getDateForSource media s
        · rfl
        · rw [hg] at h
          simp at h
      refine ⟨by simp [handleSourceChange, hget, hfind], ?_, ?_⟩
      · intro j _
        simp [handleSourceChange, hget, hfind]
      · intro media' hmedia'
        cases hmedia'
        refine ⟨fun _ => by simp [handleSourceChange, hget, hfind], ?_⟩
        intro d hd
        rw [hnone] at hd
        exact absurd hd (by simp)
    | some e =>
      have he : getDateForSource media s = some e.2 ∧ e.1 = s := by
        have h := find?_availableSources media s
        rw [hfind] at h
        cases hg : getDateForSource media s
        · rw [hg] at h
          simp at h
        · rw [hg] at h
          simp only [Option.map_some'] at h
          cases h
          exact ⟨rfl, rfl⟩
      have hout : handleSourceChange l i s =
          mapFromIdx
            (fun idx item =>
              if idx = i then
                { item with date_source := s, date_taken := some e.2 }
              else item) 0 l := by
        simp [handleSourceChange, hget, hfind]
      refine ⟨by rw [hout]; exact mapFromIdx_length _ l 0, ?_, ?_⟩
      · intro j hj
        rw [hout, mapFromIdx_getElem?]
        cases l[j]? with
        | none => rfl
        | some item =>
          simp [Nat.zero_add, hj]
      · intro media' hmedia'
        cases hmedia'
        constructor
        · intro hnone
          rw [hnone] at he
          exact absurd he.1 (by simp)
        · intro d hd
          rw [he.1] at hd
          cases hd
          refine ⟨{ media with date_source := s, date_taken := some e.2 },
            ?_, ?_⟩
          · rw [hout, mapFromIdx_getElem?, hget]
            simp
          · simp

/-- Concrete record with a FileName candidate for the override witness. -/
def overrideRecC10 : MediaInfo :=
  { blankMedia with
    filename_date := some ⟨2025, 1, 1, 12, 0, 0⟩
    date_source := DateSource.fileCreated }

/-- Witness for C10: overriding record 0 of a two-record list to the
FileName source changes record 0 to that candidate and leaves record 1
untouched. -/
theorem c10_source_override_witness :
    (handleSourceChange [overrideRecC10, blankMedia] 0 DateSource.fileName)[1]? =
        some blankMedia ∧
      ∃ r, (handleSourceChange [overrideRecC10, blankMedia] 0
          DateSource.fileName)[0]? = some r ∧
        r.date_source = DateSource.fileName ∧
        r.date_taken = some ⟨2025, 1, 1, 12, 0, 0⟩ :=
  have h := c10_source_override [overrideRecC10, blankMedia] 0 DateSource.fileName
  have h0 := (h.2.2 overrideRecC10 (by decide)).2 ⟨2025, 1, 1, 12, 0, 0⟩ (by decide)
  ⟨by
    have := h.2.1 1 (by decide)
    rw [this]
    decide,
   h0.elim (fun r hr => ⟨r, hr.1, hr.2.1, hr.2.2.1⟩)⟩

/-! ### Date resolution and burst eligibility for dateless records -/

/-- Modelled from the spec: the DateResolver (backend `photo_core.rs`,
absent from `src/`) selects the first available candidate in the configured
priority order; when none is available the resolved date is absent and the
source tag is `None`. -/
def resolveDate (priority : List DateSource) (item : MediaInfo) :
    DateSource × Option DT :=
  match priority.findSome?
      (fun s => (getDateForSource item s).map (fun d => (s, d))) with
  | some sd => (sd.1, some sd.2)
  | Option.none => (DateSource.none, Option.none)

/-- Default photo priority order: Exif, FileName, FileCreated,
FileModified. -/
def defaultPhotoPriority : List DateSource :=
  [DateSource.exif, DateSource.fileName, DateSource.fileCreated,
    DateSource.fileModified]

/-- Modelled from the spec: the BurstGrouper (backend `burst.rs`, absent
from `src/`) operates only on photo records that have a resolved date; all
other records are excluded from grouping. -/
def burstEligible (r : MediaInfo) : Bool :=
  decide (r.media_type = MediaType.photo) && r.date_taken.isSome

/-- A record with no available date candidate. -/
def noDateRecC9 : MediaInfo := { blankMedia with file_name := "x.jpg" }

/-- The claim C9 asserts the destination name of a dateless record is the
literal `"unknown date"`.  This is false: `calculateNewName` produces the
sentinel `"unknown_date"` (with an underscore), which differs from the
claimed literal. -/
theorem c9_sentinel_counterexample :
    noDateRecC9.exif_date = Option.none ∧
      noDateRecC9.filename_date = Option.none ∧
      noDateRecC9.file_created_date = Option.none ∧
      noDateRecC9.file_modified_date = Option.none ∧
      noDateRecC9.date_taken = Option.none ∧
      calculateNewName noDateRecC9 = "unknown_date" ∧
      calculateNewName noDateRecC9 ≠ "unknown date" := by
  decide

/-- C9 (amended): for every record with no available date candidate and any
priority order, the resolver leaves `date_taken` absent with
`date_source = None`, the resulting record is excluded from burst grouping,
and its computed destination name is the sentinel `"unknown_date"`. -/
theorem c9_no_candidate (item : MediaInfo) (priority : List DateSource)
    (h1 : item.exif_date = Option.none)
    (h2 : item.filename_date = Option.none)
    (h3 : item.file_created_date = Option.none)
    (h4 : item.file_modified_date = Option.none) :
    resolveDate priority item = (DateSource.none, Option.none) ∧
      burstEligible
        { item with
          date_source := DateSource.none
          date_taken := Option.none } = false ∧
      calculateNewName
        { item with
          date_source := DateSource.none
          date_taken := Option.none } = "unknown_date" := by
  have hall : ∀ s, getDateForSource item s = Option.none := by
    intro s
    cases s <;> simp [getDateForSource, h1, h2, h3, h4]
  have hfind : priority.findSome?
      (fun s => (getDateForSource item s).map (fun d => (s, d))) =
      Option.none := by
    induction priority with
    | nil => rfl
    | cons s rest ih => simp [List.findSome?_cons, hall s, ih]
  refine ⟨?_, ?_, ?_⟩
  · simp [resolveDate, hfind]
  · simp [burstEligible]
  · simp [calculateNewName]

/-- Witness for C9: the amended statement evaluated on the concrete dateless
record with the default photo priority. -/
theorem c9_no_candidate_witness :
    resolveDate defaultPhotoPriority noDateRecC9 =
        (DateSource.none, Option.none) ∧
      burstEligible
        { noDateRecC9 with
          date_source := DateSource.none
          date_taken := Option.none } = false ∧
      calculateNewName
        { noDateRecC9 with
          date_source := DateSource.none
          date_taken := Option.none } = "unknown_date" :=
  c9_no_candidate noDateRecC9 defaultPhotoPriority rfl rfl rfl rfl

/-! ### Retry of failed records -/

/-- Modelled from the spec: the retry entry point accepts the full existing
record set and redrives the process phase solely for the subset with
status `error` (abstracted as an arbitrary per-record reprocessing
function); every other record is passed through untouched. -/
def retryFailed (reprocess : MediaInfo → MediaInfo) (l : List MediaInfo) :
    List MediaInfo :=
  l.map (fun r => if r.status = some Status.error then reprocess r else r)

/-- C5: retry mutates only records whose prior status is `error`; every
record with status `completed` or `no_change` is left unchanged —
byte-identical, in particular with an identical `new_path` — and only the
`error` subset is redriven. -/
theorem c5_retry_frame (reprocess : MediaInfo → MediaInfo)
    (l : List MediaInfo) :
    (retryFailed reprocess l).length = l.length ∧
    (∀ (j : Nat) (r : MediaInfo), l[j]? = some r →
      (r.status = some Status.completed ∨ r.status = some Status.no_change) →
      (retryFailed reprocess l)[j]? = some r) ∧
    (∀ (j : Nat) (r : MediaInfo), l[j]? = some r →
      (retryFailed reprocess l)[j]? = some r ∨
        r.status = some Status.error) ∧
    (∀ (j : Nat) (r : MediaInfo), l[j]? = some r →
      r.status = some Status.error →
      (retryFailed reprocess l)[j]? = some (reprocess r)) := by
  refine ⟨by simp [retryFailed], ?_, ?_, ?_⟩
  · intro j r hj hs
    rw [retryFailed, List.getElem?_map, hj, Option.map_some']
    have : r.status ≠ some Status.error := by
      rcases hs with h | h <;> simp [h]
    simp [this]
  · intro j r hj
    by_cases hs : r.status = some Status.error
    · exact Or.inr hs
    · left
      rw [retryFailed, List.getElem?_map, hj, Option.map_some']
      simp [hs]
  · intro j r hj hs
    rw [retryFailed, List.getElem?_map, hj, Option.map_some']
    simp [hs]

/-- Concrete failed record for the retry witness. -/
def failedRecC5 : MediaInfo :=
  { blankMedia with
    original_path := "in/bad.jpg"
    status := some Status.error }

/-- Concrete completed record for the retry witness. -/
def completedRecC5 : MediaInfo :=
  { blankMedia with
    original_path := "in/good.jpg"
    new_path := "out/good.jpg"
    status := some Status.completed }

/-- Witness for C5: on a two-record list the completed record survives the
retry byte-identically while the failed record is redriven. -/
theorem c5_retry_frame_witness :
    (retryFailed (fun r => { r with status := some Status.completed })
        [failedRecC5, completedRecC5])[1]? = some completedRecC5 ∧
      (retryFailed (fun r => { r with status := some Status.completed })
        [failedRecC5, completedRecC5])[0]? =
        some { failedRecC5 with status := some Status.completed } :=
  have h := c5_retry_frame
    (fun r => { r with status := some Status.completed })
    [failedRecC5, completedRecC5]
  ⟨h.2.1 1 completedRecC5 (by decide) (Or.inl (by decide)),
   h.2.2.2 0 failedRecC5 (by decide) (by decide)⟩

/-! ### Burst grouping

Modelled from the spec: the BurstGrouper lives in the backend (`burst.rs`,
absent from `src/`; the README records its defaults — maximum interval
3 seconds, minimum count 3).  Timestamps are integer milliseconds, so the
threshold is 3000 ms and the smallest split gap is 3001 ms. -/

/-- Modelled from the spec: burst-grouping input record of the BurstGrouper
(backend `burst.rs`, absent from `src/`) — original scan order and resolved
timestamp in milliseconds. -/
structure BRec where
  idx : Nat
  ts : Int
deriving DecidableEq, Repr

/-- Modelled from the spec: sorting order of the BurstGrouper — resolved
timestamp ascending, ties broken by original scan order. -/
def brecLe (a b : BRec) : Bool :=
  decide (a.ts < b.ts) || (decide (a.ts = b.ts) && decide (a.idx ≤ b.idx))

/-- `brecLe` is transitive. -/
theorem brecLe_trans (a b c : BRec) (hab : brecLe a b = true)
    (hbc : brecLe b c = true) : brecLe a c = true := by
  simp only [brecLe, Bool.or_eq_true, Bool.and_eq_true, decide_eq_true_eq]
    at hab hbc ⊢
  omega

/-- `brecLe` is total. -/
theorem brecLe_total (a b : BRec) : (brecLe a b || brecLe b a) = true := by
  simp only [brecLe, Bool.or_eq_true, Bool.and_eq_true, decide_eq_true_eq]
  omega

/-- Modelled from the spec: the greedy left-to-right pass of the
BurstGrouper over the sorted record list — a record joins the current run
exactly when its timestamp minus the previous run member's timestamp is at
most the maximum interval `g`; otherwise the current run closes and a new
run starts at that record. -/
def runs (g : Int) : List BRec → List (List BRec)
  | [] => []
  | [x] => [[x]]
  | x :: y :: rest =>
    match runs g (y :: rest) with
    | [] => [[x]]
    | r :: rs => if y.ts - x.ts ≤ g then (x :: r) :: rs else [x] :: r :: rs

/-- The first run produced on a nonempty list starts with the list's head. -/
theorem runs_cons (g : Int) (x : BRec) :
    ∀ xs : List BRec, ∃ t rs, runs g (x :: xs) = (x :: t) :: rs
  | [] => ⟨[], [], rfl⟩
  | y :: rest => by
    obtain ⟨t, rs, h⟩ := runs_cons g y rest
    by_cases hg : y.ts - x.ts ≤ g
    · exact ⟨y :: t, rs, by simp only [runs]; rw [h]; simp [hg]⟩
    · exact ⟨[], (y :: t) :: rs, by simp only [runs]; rw [h]; simp [hg]⟩

/-- The runs concatenate back to the input list: the greedy pass is a
partition. -/
theorem runs_flatten (g : Int) : ∀ l : List BRec, (runs g l).flatten = l
  | [] => rfl
  | [x] => rfl
  | x :: y :: rest => by
    have ih := runs_flatten g (y :: rest)
    obtain ⟨t, rs, h⟩ := runs_cons g y rest
    rw [h] at ih
    have hrun : runs g (x :: y :: rest) =
        if y.ts - x.ts ≤ g then ((x :: y :: t) :: rs)
        else ([x] :: (y :: t) :: rs) := by
      simp only [runs]
      rw [h]
    rw [hrun]
    by_cases hg : y.ts - x.ts ≤ g <;> simp [hg] <;>
      simpa using ih

/-- No run produced by the greedy pass is empty. -/
theorem runs_ne_nil (g : Int) :
    ∀ l : List BRec, ∀ r ∈ runs g l, r ≠ []
  | [] => by simp [runs]
  | [x] => by
    intro r hr
    simp [runs] at hr
    simp [hr]
  | x :: y :: rest => by
    have ih := runs_ne_nil g (y :: rest)
    obtain ⟨t, rs, h⟩ := runs_cons g y rest
    rw [h] at ih
    have hrun : runs g (x :: y :: rest) =
        if y.ts - x.ts ≤ g then ((x :: y :: t) :: rs)
        else ([x] :: (y :: t) :: rs) := by
      simp only [runs]
      rw [h]
    intro r hr
    rw [hrun] at hr
    by_cases hg : y.ts - x.ts ≤ g
    · rw [if_pos hg] at hr
      rcases List.mem_cons.mp hr with h1 | h1
      · subst h1; simp
      · exact ih r (List.mem_cons_of_mem _ h1)
    · rw [if_neg hg] at hr
      rcases List.mem_cons.mp hr with h1 | h1
      · subst h1; simp
      · exact ih r h1

/-- Within every run, each member's timestamp is at most `g` later than the
previous member's: a gap of exactly `g` joins the run. -/
theorem runs_chain (g : Int) :
    ∀ l : List BRec, ∀ r ∈ runs g l,
      r.Chain' (fun a b => b.ts - a.ts ≤ g)
  | [] => by simp [runs]
  | [x] => by
    intro r hr
    simp [runs] at hr
    simp [hr]
  | x :: y :: rest => by
    have ih := runs_chain g (y :: rest)
    obtain ⟨t, rs, h⟩ := runs_cons g y rest
    rw [h] at ih
    have hrun : runs g (x :: y :: rest) =
        if y.ts - x.ts ≤ g then ((x :: y :: t) :: rs)
        else ([x] :: (y :: t) :: rs) := by
      simp only [runs]
      rw [h]
    intro r hr
    rw [hrun] at hr
    by_cases hg : y.ts - x.ts ≤ g
    · rw [if_pos hg] at hr
      rcases List.mem_cons.mp hr with h1 | h1
      · subst h1
        exact List.chain'_cons.mpr
          ⟨hg, ih (y :: t) (List.mem_cons_self _ _)⟩
      · exact ih r (List.mem_cons_of_mem _ h1)
    · rw [if_neg hg] at hr
      rcases List.mem_cons.mp hr with h1 | h1
      · subst h1; simp
      · exact ih r h1

/-- Between two consecutive runs the gap from the last member of the first
to the first member of the second exceeds `g`: a gap of `g` plus any
positive amount splits the run. -/
theorem runs_boundary (g : Int) :
    ∀ l : List BRec,
      (runs g l).Chain' (fun r₁ r₂ => ∀ a b, r₁.getLast? = some a →
        r₂.head? = some b → g < b.ts - a.ts)
  | [] => by simp [runs]
  | [x] => by simp [runs]
  | x :: y :: rest => by
    have ih := runs_boundary g (y :: rest)
    obtain ⟨t, rs, h⟩ := runs_cons g y rest
    rw [h] at ih
    have hrun : runs g (x :: y :: rest) =
        if y.ts - x.ts ≤ g then ((x :: y :: t) :: rs)
        else ([x] :: (y :: t) :: rs) := by
      simp only [runs]
      rw [h]
    rw [hrun]
    by_cases hg : y.ts - x.ts ≤ g
    · rw [if_pos hg]
      rcases List.chain'_cons'.mp ih with ⟨hrel, hrs⟩
      refine List.chain'_cons'.mpr ⟨?_, hrs⟩
      intro z hz a b ha hb
      refine hrel z hz a b ?_ hb
      rwa [List.getLast?_cons_cons] at ha
    · rw [if_neg hg]
      refine List.chain'_cons.mpr ⟨?_, ih⟩
      intro a b ha hb
      simp only [List.getLast?_singleton, Option.some.injEq] at ha
      simp only [List.head?_cons, Option.some.injEq] at hb
      subst ha
      subst hb
      omega

/-- Modelled from the spec: assignment of `burst_index` values `i, i+1, ...`
with group id `gid` along a run. -/
def numberFrom (gid i : Nat) : List BRec → List (BRec × Option (Nat × Nat))
  | [] => []
  | x :: xs => (x, some (gid, i)) :: numberFrom gid (i + 1) xs

/-- Modelled from the spec: a closed run with at least `minCount` members is
assigned the next sequential group id and member indices `1..N` in run
order; members of shorter runs are left without group id or index. -/
def annotate (minCount nextId : Nat) :
    List (List BRec) → List (List (BRec × Option (Nat × Nat)))
  | [] => []
  | r :: rs =>
    if minCount ≤ r.length then
      numberFrom nextId 1 r :: annotate minCount (nextId + 1) rs
    else
      r.map (fun x => (x, Option.none)) :: annotate minCount nextId rs

/-- Number of qualifying runs (length at least `minCount`) in a run list. -/
def countQualifying (minCount : Nat) (rs : List (List BRec)) : Nat :=
  (rs.filter (fun r => decide (minCount ≤ r.length))).length

/-- Modelled from the spec: the full BurstGrouper over the eligible photo
records — stable sort by timestamp (ties by scan order), greedy runs with
the default 3000 ms maximum interval, sequential group assignment with the
default minimum count 3. -/
def burstGroup (l : List BRec) : List (BRec × Option (Nat × Nat)) :=
  (annotate 3 1 (runs 3000 (l.mergeSort brecLe))).flatten

/-- The accumulator of `annotate` made explicit: the run at position `k` is
numbered with group id `nextId` plus the number of qualifying runs before
position `k` when it qualifies, and receives no numbering otherwise. -/
theorem annotate_getElem? (mc : Nat) :
    ∀ (rs : List (List BRec)) (n k : Nat),
      (annotate mc n rs)[k]? = Option.map (fun r =>
        if mc ≤ r.length then
          numberFrom (n + countQualifying mc (rs.take k)) 1 r
        else r.map (fun x => (x, Option.none))) rs[k]?
  | [], n, k => by simp [annotate]
  | r :: rs, n, 0 => by
    by_cases hq : mc ≤ r.length <;>
      simp [annotate, countQualifying, hq]
  | r :: rs, n, k + 1 => by
    by_cases hq : mc ≤ r.length
    · simp only [annotate, if_pos hq, List.getElem?_cons_succ]
      rw [annotate_getElem? mc rs (n + 1) k]
      have harg : n + 1 + countQualifying mc (rs.take k) =
          n + countQualifying mc ((r :: rs).take (k + 1)) := by
        simp only [countQualifying, List.take_succ_cons]
        rw [List.filter_cons_of_pos (by simpa using hq)]
        simp only [List.length_cons]
        omega
      rw [harg]
    · simp only [annotate, if_neg hq, List.getElem?_cons_succ]
      rw [annotate_getElem? mc rs n k]
      have harg : n + countQualifying mc (rs.take k) =
          n + countQualifying mc ((r :: rs).take (k + 1)) := by
        simp only [countQualifying, List.take_succ_cons]
        rw [List.filter_cons_of_neg (by simpa using hq)]
      rw [harg]

/-- C2: the BurstGrouper sorts the records by timestamp ascending with ties
by scan order (a permutation of the input, sorted under `brecLe`), makes a
single greedy pass whose runs partition the sorted list — within a run every
adjacent gap is at most 3.0 s (3000 ms; a gap of exactly 3000 ms joins) and
between consecutive runs the gap exceeds 3000 ms (3000 ms plus any positive
amount splits) — and then assigns every run of at least 3 members the next
sequential group id with member indices `1..N` in timestamp order, leaving
every member of a shorter run without group id or index. -/
theorem c2_burst_grouping (l : List BRec) :
    (l.mergeSort brecLe).Perm l ∧
    (l.mergeSort brecLe).Pairwise (fun a b => brecLe a b = true) ∧
    (runs 3000 (l.mergeSort brecLe)).flatten = l.mergeSort brecLe ∧
    (∀ r ∈ runs 3000 (l.mergeSort brecLe),
      r ≠ [] ∧ r.Chain' (fun a b => b.ts - a.ts ≤ 3000)) ∧
    (runs 3000 (l.mergeSort brecLe)).Chain'
      (fun r₁ r₂ => ∀ a b, r₁.getLast? = some a → r₂.head? = some b →
        3000 < b.ts - a.ts) ∧
    (∀ k : Nat, (annotate 3 1 (runs 3000 (l.mergeSort brecLe)))[k]? =
      Option.map (fun r =>
        if 3 ≤ r.length then
          numberFrom
            (1 + countQualifying 3 ((runs 3000 (l.mergeSort brecLe)).take k))
            1 r
        else r.map (fun x => (x, Option.none)))
        (runs 3000 (l.mergeSort brecLe))[k]?) ∧
    burstGroup l =
      (annotate 3 1 (runs 3000 (l.mergeSort brecLe))).flatten :=
  ⟨List.mergeSort_perm l brecLe,
   List.sorted_mergeSort brecLe_trans brecLe_total l,
   runs_flatten 3000 _,
   fun r hr => ⟨runs_ne_nil 3000 _ r hr, runs_chain 3000 _ r hr⟩,
   runs_boundary 3000 _,
   fun k => annotate_getElem? 3 _ 1 k,
   rfl⟩

/-- Witness for C2: the in-run gap bound extracted from the theorem on a
concrete already-sorted list — the run of three photos spaced 2 s apart
(followed by one 16 s later) satisfies the 3000 ms chain condition. -/
theorem c2_burst_grouping_witness :
    ([⟨0, 0⟩, ⟨1, 2000⟩, ⟨2, 4000⟩] : List BRec).Chain'
      (fun a b => b.ts - a.ts ≤ 3000) := by
  have hsorted : List.mergeSort
      [(⟨0, 0⟩ : BRec), ⟨1, 2000⟩, ⟨2, 4000⟩, ⟨3, 20000⟩] brecLe =
      [⟨0, 0⟩, ⟨1, 2000⟩, ⟨2, 4000⟩, ⟨3, 20000⟩] :=
    List.mergeSort_of_sorted (by decide)
  have h := (c2_burst_grouping [⟨0, 0⟩, ⟨1, 2000⟩, ⟨2, 4000⟩, ⟨3, 20000⟩]).2.2.2.1
  refine (h [⟨0, 0⟩, ⟨1, 2000⟩, ⟨2, 4000⟩] ?_).2
  rw [hsorted]
  decide

end PhotoReturns
